import Mathlib

/-!
A shallow embedding of the battleship backend of `django-react-webapp`
(`backend/api/game_engine.py` and the restart path of
`backend/api/consumers/game_consumer.py` together with
`consumers/services/game_service.py`), followed by theorems settling the
frozen claims about it.

Modelling conventions:
* Python lists are Lean `List`s; Python list indexing (including negative
  wrap-around) is `pyGet`/`pySet`, which return `none` exactly when Python
  raises `IndexError`.
* Python dicts with string keys whose key set varies (the engine's `games`
  dict, the Redis status hash, the `ships_left` inventory dict) are
  association lists; `dlookup` returns `none` exactly when Python raises
  `KeyError`.
* The per-game dicts keyed by the two player usernames (`boards`, `hits`,
  `ships_left`, `placed_ships`, `ready`) are modelled as total maps
  `String → _`: `create_game` populates them with exactly the two players
  and every claim accesses them at one of those players.
* An engine operation returns `Option result × Engine`: the first component
  is `none` exactly when the Python code raises an uncaught exception
  (`KeyError`/`IndexError`), and the second component is the engine state
  after whatever in-place mutations happened before the raise.
* `random.choice([player1, player2])` in `create_game` is modelled by an
  explicit boolean argument `coin` selecting the starting player.
-/

/-! ## Python list indexing -/

/-- Python index resolution for a list of length `n`: nonnegative indices are
valid below `n`, negative indices wrap from the end; `none` is `IndexError`. -/
def pyIdx (n : Nat) (i : Int) : Option Nat :=
  if 0 ≤ i then
    if i < (n : Int) then some i.toNat else none
  else
    if 0 ≤ (n : Int) + i then some ((n : Int) + i).toNat else none

/-- Python `l[i]` (read). -/
def pyGet {α : Type} (l : List α) (i : Int) : Option α :=
  (pyIdx l.length i).bind (fun n => l.get? n)

/-- Python `l[i] = v` (write); `none` is `IndexError`. -/
def pySet {α : Type} (l : List α) (i : Int) (v : α) : Option (List α) :=
  (pyIdx l.length i).map (fun n => l.set n v)

/-- A game board: a `10×10` grid of `""`, `"S"`, `"X"` or `"O"` cells. -/
abbrev Board := List (List String)

/-- Python `b[y][x]` on a nested list. -/
def pyGet2 (b : Board) (y x : Int) : Option String :=
  (pyGet b y).bind (fun row => pyGet row x)

/-- Python `b[y][x] = v` on a nested list (the row is mutated in place). -/
def pySet2 (b : Board) (y x : Int) (v : String) : Option Board :=
  (pyIdx b.length y).bind fun ny =>
    (b.get? ny).bind fun row =>
      (pySet row x v).map fun row2 => b.set ny row2

/-- Python `str.upper()` (character-wise; usernames are treated at the
ASCII level, which is all the claims depend on). Defined through
`List.map` so it reduces definitionally, unlike `String.toUpper`. -/
def pyUpper (s : String) : String := ⟨s.data.map Char.toUpper⟩

/-- Lexicographic comparison of code-point lists, as Python compares
strings. -/
def listLtB : List Char → List Char → Bool
  | [], [] => false
  | [], _ :: _ => true
  | _ :: _, [] => false
  | a :: as, b :: bs =>
      if a < b then true else if b < a then false else listLtB as bs

/-- Python `a < b` on strings. -/
def strLtB (a b : String) : Bool := listLtB a.data b.data

/-! ## Dicts as association lists / total maps -/

/-- Python dict read `d[k]`; `none` is `KeyError`. -/
def dlookup {κ β : Type} [DecidableEq κ] (k : κ) : List (κ × β) → Option β
  | [] => none
  | (k2, v) :: rest => if k = k2 then some v else dlookup k rest

/-- Python dict write `d[k] = v` (update in place, or insert at the end). -/
def dset {κ β : Type} [DecidableEq κ] (k : κ) (v : β) :
    List (κ × β) → List (κ × β)
  | [] => [(k, v)]
  | (k2, v2) :: rest =>
      if k = k2 then (k, v) :: rest else (k2, v2) :: dset k v rest

/-- Python dict deletion `del d[k]` (no-op when the key is absent, which is
how `end_game` uses it behind its membership guard). -/
def ddel {κ β : Type} [DecidableEq κ] (k : κ) :
    List (κ × β) → List (κ × β)
  | [] => []
  | (k2, v2) :: rest =>
      if k = k2 then rest else (k2, v2) :: ddel k rest

/-- Update of a total map at one key. -/
def upd {β : Type} (f : String → β) (k : String) (v : β) : String → β :=
  fun q => if q = k then v else f q

/-! ## Data model (`game_engine.py`) -/

/-- One entry of `placed_ships[player]`: `{"coords": [...], "sunk": bool}`. -/
structure Ship where
  coords : List (Int × Int)
  sunk : Bool
deriving DecidableEq, Repr

/-- One game dict as built by `GameEngine.create_game`. -/
structure Game where
  players : List String
  boards : String → Board
  hits : String → Board
  ships_left : String → List (Nat × Nat)
  placed_ships : String → List Ship
  ready : String → Bool
  turn : String
  winner : Option String

/-- `GameEngine.games`: the dict from game id to game. -/
abbrev Engine := List (String × Game)

/-- The result dicts the engine returns: always `result` and `access`, with
`x`, `y`, `next_turn` present only on a completed move. -/
structure ActionResult where
  result : String
  access : String
  x : Option Int
  y : Option Int
  next_turn : Option String
deriving DecidableEq, Repr

/-- A `{"result": r, "access": a}` dict. -/
def mkRes (r a : String) : ActionResult := ⟨r, a, none, none, none⟩

/-- `create_empty_board()`. -/
def create_empty_board : Board :=
  List.replicate 10 (List.replicate 10 "")

/-- `GameEngine.create_game(game_id, player1, player2)`. The `coin` argument
models `random.choice([player1, player2])`: `true` picks `player1`. -/
def create_game (e : Engine) (game_id player1 player2 : String)
    (coin : Bool) : Engine :=
  dset game_id
    { players := [player1, player2]
      boards := fun _ => create_empty_board
      hits := fun _ => create_empty_board
      ships_left := fun _ => [(2, 1), (3, 2), (4, 1), (5, 1)]
      placed_ships := fun _ => []
      ready := fun _ => false
      turn := if coin then player1 else player2
      winner := none } e

/-- `GameEngine.get_game(game_id)`: `self.games[game_id]`, so `none` models
the `KeyError` raised when the id is absent. -/
def get_game (e : Engine) (game_id : String) : Option Game :=
  dlookup game_id e

/-- The ship coordinates computed by the placement loop in
`GameEngine.place_ships`: any orientation other than `"horizontal"` is
treated as vertical. -/
def placeCoords (x_start y_start : Int) (length : Nat) (orientation : String) :
    List (Int × Int) :=
  (List.range length).map (fun i =>
    if orientation = "horizontal" then (x_start + Int.ofNat i, y_start)
    else (x_start, y_start + Int.ofNat i))

/-- The in-place write loop `for x, y in coords: board[y][x] = v`, stopping at
the first `IndexError`; returns the (possibly partially written) board and
whether every write succeeded. -/
def writeCells (v : String) : Board → List (Int × Int) → Board × Bool
  | b, [] => (b, true)
  | b, (x, y) :: rest =>
    match pySet2 b y x v with
    | none => (b, false)
    | some b2 => writeCells v b2 rest

/-- `GameEngine.place_ships(game_id, player, x_start, y_start, length,
orientation)`. `none` in the first component models an uncaught exception:
the `KeyError` from `get_game` on a missing id (the `if not game` guard is
unreachable, a game dict being truthy), the `KeyError` from
`ships_left[length]` on a length outside the inventory, or an `IndexError`
from an out-of-bounds board write (whose earlier writes persist). -/
def place_ships (e : Engine) (game_id player : String)
    (x_start y_start : Int) (length : Nat) (orientation : String) :
    Option ActionResult × Engine :=
  match get_game e game_id with
  | none => (none, e)
  | some game =>
    let board := game.boards player
    let ships_left := game.ships_left player
    match dlookup length ships_left with
    | none => (none, e)
    | some cnt =>
      if cnt = 0 then
        (some (mkRes
            ("NO MORE SHIPS OF LENGTH " ++ toString length ++ " AVAILABLE")
            "private"), e)
      else
        let coords := placeCoords x_start y_start length orientation
        match writeCells "S" board coords with
        | (b2, false) =>
            (none, dset game_id { game with boards := upd game.boards player b2 } e)
        | (b2, true) =>
            let game2 :=
              { game with
                boards := upd game.boards player b2
                placed_ships := upd game.placed_ships player
                  (game.placed_ships player ++ [⟨coords, false⟩])
                ships_left := upd game.ships_left player
                  (dset length (cnt - 1) ships_left) }
            (some (mkRes "SHIP PLACED" "private"), dset game_id game2 e)

/-- `GameEngine.remove_ship(game_id, player, x, y)`. The board cells of the
found ship are cleared and the ship removed from the list before
`ships_left[len(coords)] += 1`; a `KeyError` there (length not in the
inventory dict) or an `IndexError` while clearing leaves those earlier
mutations in place. -/
def remove_ship (e : Engine) (game_id player : String) (x y : Int) :
    Option ActionResult × Engine :=
  match get_game e game_id with
  | none => (none, e)
  | some game =>
    let board := game.boards player
    let ships := game.placed_ships player
    let ships_left := game.ships_left player
    match ships.find? (fun s => s.coords.contains (x, y)) with
    | none => (some (mkRes "NO SHIP FOUND AT CHOSEN POSITION" "private"), e)
    | some ship =>
      match writeCells "" board ship.coords with
      | (b2, false) =>
          (none, dset game_id { game with boards := upd game.boards player b2 } e)
      | (b2, true) =>
        let ships2 := ships.erase ship
        match dlookup ship.coords.length ships_left with
        | none =>
            (none, dset game_id
              { game with
                boards := upd game.boards player b2
                placed_ships := upd game.placed_ships player ships2 } e)
        | some cnt =>
          let game2 :=
            { game with
              boards := upd game.boards player b2
              placed_ships := upd game.placed_ships player ships2
              ships_left := upd game.ships_left player
                (dset ship.coords.length (cnt + 1) ships_left) }
          (some (mkRes "SHIP REMOVED" "private"), dset game_id game2 e)

/-- `GameEngine.set_ready(game_id, player)`. -/
def set_ready (e : Engine) (game_id player : String) :
    Option ActionResult × Engine :=
  match get_game e game_id with
  | none => (none, e)
  | some game =>
    if (game.ships_left player).any (fun kv => 0 < kv.2) then
      (some (mkRes "YOU MUST PLACE ALL SHIPS FIRST" "private"), e)
    else
      (some (mkRes (pyUpper player ++ " IS READY") "public"),
        dset game_id { game with ready := upd game.ready player true } e)

/-- The generator `all(hit_board[yy][xx] == "X" for xx, yy in ship["coords"])`
(placed coordinates were successfully written, so each read succeeds). -/
def allHit (hb : Board) (coords : List (Int × Int)) : Bool :=
  coords.all (fun c => pyGet2 hb c.2 c.1 == some "X")

/-- `GameEngine.make_move(game_id, player, x, y)`. `none` models the
`KeyError` from `get_game` on a missing id (the `GAME NOT FOUND` branch is
unreachable), the `IndexError` from `[p for p in players if p != player][0]`
when no other player exists, or an `IndexError` on an out-of-bounds shot.
Note the source checks neither `turn` nor `ready`, and never consults
`winner`. -/
def make_move (e : Engine) (game_id player : String) (x y : Int) :
    Option ActionResult × Engine :=
  match get_game e game_id with
  | none => (none, e)
  | some game =>
    match (game.players.filter (fun p => p ≠ player)).head? with
    | none => (none, e)
    | some enemy =>
      let enemy_board := game.boards enemy
      let hit_board := game.hits player
      match pyGet2 hit_board y x with
      | none => (none, e)
      | some hcell =>
        if hcell ≠ "" then
          (some (mkRes "ALREADY SHOT THIS POSITION - CHOOSE ANOTHER"
            "private"), e)
        else
          match pyGet2 enemy_board y x with
          | none => (none, e)
          | some ecell =>
            let up := pyUpper player
            if ecell = "S" then
              match pySet2 hit_board y x "X" with
              | none => (none, e)
              | some hb2 =>
                let ships := game.placed_ships enemy
                match ships.findIdx? (fun s => s.coords.contains (x, y)) with
                | none =>
                  let game2 := { game with
                    hits := upd game.hits player hb2
                    turn := enemy }
                  (some ⟨up ++ " LANDED A HIT", "public", some x, some y,
                    some enemy⟩, dset game_id game2 e)
                | some i =>
                  match ships.get? i with
                  | none =>
                    let game2 := { game with
                      hits := upd game.hits player hb2
                      turn := enemy }
                    (some ⟨up ++ " LANDED A HIT", "public", some x, some y,
                      some enemy⟩, dset game_id game2 e)
                  | some ship =>
                    if allHit hb2 ship.coords then
                      let ships2 := ships.set i { ship with sunk := true }
                      if ships2.all (fun s => s.sunk) then
                        let game2 := { game with
                          hits := upd game.hits player hb2
                          placed_ships := upd game.placed_ships enemy ships2
                          winner := some player
                          turn := enemy }
                        (some ⟨"GAME OVER! " ++ up ++ " WON!", "public",
                          some x, some y, some enemy⟩, dset game_id game2 e)
                      else
                        let game2 := { game with
                          hits := upd game.hits player hb2
                          placed_ships := upd game.placed_ships enemy ships2
                          turn := enemy }
                        (some ⟨up ++ " SUNK ENEMY SHIP", "public", some x,
                          some y, some enemy⟩, dset game_id game2 e)
                    else
                      let game2 := { game with
                        hits := upd game.hits player hb2
                        turn := enemy }
                      (some ⟨up ++ " LANDED A HIT", "public", some x, some y,
                        some enemy⟩, dset game_id game2 e)
            else
              match pySet2 hit_board y x "O" with
              | none => (none, e)
              | some hb2 =>
                let game2 := { game with
                  hits := upd game.hits player hb2
                  turn := enemy }
                (some ⟨up ++ " MISSED", "public", some x, some y,
                  some enemy⟩, dset game_id game2 e)

/-- The projection dict built by `GameEngine.get_game_state`. -/
structure GameState where
  players : List String
  self : String
  own_board : Board
  opponent_board : Board
  hits : Board
  opponent_hits : Board
  placed_ships : List Ship
  opponent_placed_ships : List Ship
  ships_left : List (Nat × Nat)
  ready : Bool
  opponent_ready : Bool
  turn : String
  winner : Option String

/-- `GameEngine.get_game_state(game_id, player)`. `none` models the
`KeyError` from `get_game` (the `return None` branch is unreachable) or the
`IndexError` computing the enemy. -/
def get_game_state (e : Engine) (game_id player : String) :
    Option GameState :=
  match get_game e game_id with
  | none => none
  | some game =>
    match (game.players.filter (fun p => p ≠ player)).head? with
    | none => none
    | some enemy =>
      some
        { players := game.players
          self := player
          own_board := game.boards player
          opponent_board := game.boards enemy
          hits := game.hits player
          opponent_hits := game.hits enemy
          placed_ships := game.placed_ships player
          opponent_placed_ships := game.placed_ships enemy
          ships_left := game.ships_left player
          ready := game.ready player
          opponent_ready := game.ready enemy
          turn := game.turn
          winner := game.winner }

/-- `GameEngine.end_game(game_id)`. -/
def end_game (e : Engine) (game_id : String) : Engine :=
  ddel game_id e

/-! ## The restart path (`game_consumer.py` + `game_service.py`) -/

/-- A per-player status JSON blob stored in the per-match Redis hash. -/
structure PlayerStatus where
  temp_disconnect : Bool
  full_disconnect : Bool
  restart : Bool
deriving DecidableEq, Repr

/-- The per-match Redis hash `game_id → {username: status}`. -/
abbrev StatusHash := List (String × PlayerStatus)

/-- `GameService.set_status(game_id, username, "restart", value)`: reads the
player's status (`None` when absent, whereupon `status[key] = value` raises
`TypeError`, modelled as `none`) and writes it back with `restart` set. -/
def set_status_restart (h : StatusHash) (username : String) (value : Bool) :
    Option StatusHash :=
  match dlookup username h with
  | none => none
  | some st => some (dset username { st with restart := value } h)

/-- `GameService.all_status_true(game_id, "restart")`: `all(...)` over the
hash values. -/
def all_status_restart (h : StatusHash) : Bool :=
  h.all (fun kv => kv.2.restart)

/-- Python `sorted(game["players"])` followed by unpacking into two names;
`none` models the `ValueError` when the list does not have exactly two
elements. -/
def sorted2 (l : List String) : Option (String × String) :=
  match l with
  | [a, b] => if strLtB b a then some (b, a) else some (a, b)
  | _ => none

/-- `GameConsumer.action_restart_game`, with chat messages and group sends
elided: returns the engine, the status hash and whether a restart was
triggered. `none` models the `KeyError` from `get_game` (the `if not game`
guard is unreachable) or the failed unpack/`set_status`. `coin` is the turn
randomization of the `create_game` call. -/
def action_restart_game (e : Engine) (h : StatusHash)
    (game_id username : String) (coin : Bool) :
    Option (Engine × StatusHash × Bool) :=
  match get_game e game_id with
  | none => none
  | some game =>
    match sorted2 game.players with
    | none => none
    | some (player1, player2) =>
      match set_status_restart h username true with
      | none => none
      | some h2 =>
        if all_status_restart h2 then
          some (create_game e game_id player1 player2 coin, h2, true)
        else
          some (e, h2, false)

/-! ## Concrete scenarios

Reachable states used to settle the claims on explicit inputs. All are
produced by the engine operations themselves, starting from an empty
engine. -/

/-- A fresh game between `"alice"` and `"bob"`; the coin picks `"alice"` as
the starting turn. -/
def engAB : Engine := create_game [] "game1" "alice" "bob" true

/-- `engAB` after `"bob"` places his length-2 ship at `(0,0)–(1,0)`. -/
def engAB_bobShip : Engine :=
  (place_ships engAB "game1" "bob" 0 0 2 "horizontal").2

/-- The status hash right before `"alice"`'s deciding rematch vote:
`"bob"` has already voted. -/
def hashC7 : StatusHash :=
  [("alice", ⟨false, false, false⟩), ("bob", ⟨false, false, true⟩)]

/-- `engAB_bobShip` after `"alice"` sinks `"bob"`'s only placed ship with
shots at `(0,0)` and `(1,0)`: the second shot sets `winner = "alice"` and
hands the turn to `"bob"`. -/
def engWon : Engine :=
  (make_move (make_move engAB_bobShip "game1" "alice" 0 0).2
    "game1" "alice" 1 0).2

/-- A throwaway `Game` used as the `Option.getD` default when a witness
extracts the concrete game of a scenario. -/
def dummyGame : Game :=
  { players := []
    boards := fun _ => []
    hits := fun _ => []
    ships_left := fun _ => []
    placed_ships := fun _ => []
    ready := fun _ => false
    turn := ""
    winner := none }

/-- The number of ships currently marked sunk. -/
def sunkCount (ships : List Ship) : Nat := ships.countP (fun s => s.sunk)

/-- A fully set-up match: both players place the whole inventory (rows 0–4,
horizontal) and declare ready; the coin gives `"alice"` the first turn. -/
def engC4 : Engine :=
  let e0 := create_game [] "game4" "alice" "bob" true
  let e1 := (place_ships e0 "game4" "alice" 0 0 2 "horizontal").2
  let e2 := (place_ships e1 "game4" "alice" 0 1 3 "horizontal").2
  let e3 := (place_ships e2 "game4" "alice" 0 2 3 "horizontal").2
  let e4 := (place_ships e3 "game4" "alice" 0 3 4 "horizontal").2
  let e5 := (place_ships e4 "game4" "alice" 0 4 5 "horizontal").2
  let f1 := (place_ships e5 "game4" "bob" 0 0 2 "horizontal").2
  let f2 := (place_ships f1 "game4" "bob" 0 1 3 "horizontal").2
  let f3 := (place_ships f2 "game4" "bob" 0 2 3 "horizontal").2
  let f4 := (place_ships f3 "game4" "bob" 0 3 4 "horizontal").2
  let f5 := (place_ships f4 "game4" "bob" 0 4 5 "horizontal").2
  let r1 := (set_ready f5 "game4" "alice").2
  (set_ready r1 "game4" "bob").2

/-! ## Placement-phase operation sequences (for the §8 invariant) -/

/-- One placement-phase call for a fixed game and player: `place_ships` or
`remove_ship`. -/
inductive POp where
  | place (x y : Int) (len : Nat) (orient : String)
  | remove (x y : Int)

/-- Run one placement-phase call against the engine. -/
def applyPOp (gid pl : String) (e : Engine) : POp → Engine
  | .place x y len o => (place_ships e gid pl x y len o).2
  | .remove x y => (remove_ship e gid pl x y).2

/-- Run a sequence of placement-phase calls. -/
def applyPOps (gid pl : String) : Engine → List POp → Engine
  | e, [] => e
  | e, op :: rest => applyPOps gid pl (applyPOp gid pl e op) rest

/-- Membership in the 10×10 board. -/
def inBounds (c : Int × Int) : Bool :=
  decide (0 ≤ c.1) && decide (c.1 < 10) && decide (0 ≤ c.2) &&
    decide (c.2 < 10)

/-- A valid call in the sense of the claim: for a placement, the length is
from the inventory and every computed cell is on the board and not already
occupied; a removal is always allowed. The game must exist. -/
def validPOp (gid pl : String) (e : Engine) : POp → Bool
  | .place x y len o =>
      match get_game e gid with
      | none => false
      | some g =>
          (dlookup len (g.ships_left pl)).isSome &&
          (placeCoords x y len o).all (fun c =>
            inBounds c && (pyGet2 (g.boards pl) c.2 c.1 == some ""))
  | .remove _ _ => (get_game e gid).isSome

/-- Validity of a whole sequence, each op judged on the state it runs in. -/
def validPOps (gid pl : String) : Engine → List POp → Bool
  | _, [] => true
  | e, op :: rest =>
      validPOp gid pl e op && validPOps gid pl (applyPOp gid pl e op) rest

/-- `Σ len(coords)` over a ship list. -/
def shipCells (ships : List Ship) : Nat :=
  (ships.map (fun s => s.coords.length)).sum

/-- `Σ length·count` over the `ships_left` inventory dict. -/
def inventoryCells (sl : List (Nat × Nat)) : Nat :=
  (sl.map (fun kv => kv.1 * kv.2)).sum

/-- The placement-phase invariant of one player's half of a game: a welled
10×10 board, the untouched inventory key set, placed ships on-board with
inventory lengths and pairwise disjoint cells, the board-cell/ship-cell
correspondence, and the 17-cell conservation law. -/
structure PlaceInv (g : Game) (pl : String) : Prop where
  board_h : (g.boards pl).length = 10
  board_w : ∀ row ∈ g.boards pl, row.length = 10
  keys : (g.ships_left pl).map (fun kv => kv.1) = [2, 3, 4, 5]
  ship_len : ∀ s ∈ g.placed_ships pl, s.coords.length ∈ [2, 3, 4, 5]
  ship_in : ∀ s ∈ g.placed_ships pl, ∀ c ∈ s.coords, inBounds c = true
  disj : (g.placed_ships pl).Pairwise
    (fun s t => ∀ c, c ∈ s.coords → c ∉ t.coords)
  cell_iff : ∀ xx yy : Int, inBounds (xx, yy) = true →
    (pyGet2 (g.boards pl) yy xx = some "S" ↔
      ∃ s ∈ g.placed_ships pl, (xx, yy) ∈ s.coords)
  cell_vals : ∀ xx yy : Int, inBounds (xx, yy) = true →
    pyGet2 (g.boards pl) yy xx = some "S" ∨
      pyGet2 (g.boards pl) yy xx = some ""
  total : shipCells (g.placed_ships pl) +
    inventoryCells (g.ships_left pl) = 17

/-! ## C1 — opponent-board redaction -/

/-- C1 (counterexample): the claim says that while `winner` is null the
state produced by `get_game_state` contains no opponent-board cell equal to
`"S"`. In the reachable state `engAB_bobShip`, `get_game_state` for
`"alice"` has `winner = none` and yet `opponent_board[0][0] = "S"`:
`get_game_state` returns the opponent's board verbatim. -/
theorem c1_counterexample :
    (get_game_state engAB_bobShip "game1" "alice").map
        (fun st => (st.winner, pyGet2 st.opponent_board 0 0)) =
      some (none, some "S") := by rfl

/-! ## C2 — make_move turn/readiness preconditions -/

/-- C2 (counterexample): the claim says a `make_move` call with
`turn ≠ player` or a non-ready player returns a private rule-violation
message and leaves the state unchanged. In `engAB` the turn is `"alice"`
and neither player is ready, yet `"bob"`'s move is processed: it returns
the public `BOB MISSED` result and writes `"O"` into `hits["bob"]`. -/
theorem c2_counterexample :
    (get_game engAB "game1").map
        (fun g => (g.turn, g.ready "alice", g.ready "bob")) =
      some ("alice", false, false) ∧
    (make_move engAB "game1" "bob" 0 0).1 =
      some ⟨"BOB MISSED", "public", some 0, some 0, some "alice"⟩ ∧
    (get_game (make_move engAB "game1" "bob" 0 0).2 "game1").map
        (fun g => pyGet2 (g.hits "bob") 0 0) =
      some (some "O") := by
  exact ⟨rfl, rfl, rfl⟩

/-! ## C3 — missing game id -/

/-- C3 (code evaluated at the failing input): for a `game_id` absent from
the engine, every one of `place_ships`, `remove_ship`, `set_ready` and
`make_move` raises the `KeyError` of `self.games[game_id]` (modelled as a
`none` result) instead of returning the `GAME NOT FOUND` dict — the
`if not game` guards are unreachable. -/
theorem c3_missing_game_raises :
    (place_ships ([] : Engine) "nogame" "alice" 0 0 2 "horizontal").1 = none ∧
    (remove_ship ([] : Engine) "nogame" "alice" 0 0).1 = none ∧
    (set_ready ([] : Engine) "nogame" "alice").1 = none ∧
    (make_move ([] : Engine) "nogame" "alice" 0 0).1 = none := by
  exact ⟨rfl, rfl, rfl, rfl⟩

/-! ## C6 — bounds / overlap checking in place_ships -/

/-- C6 (counterexample): the claim says `place_ships` rejects placements
that overlap a previously placed ship and leaves the state unchanged. In
`engAB_bobShip`, cell `(0,0)` of `"bob"` already holds `"S"`, yet placing a
vertical length-3 ship at `(0,0)` returns `SHIP PLACED` and records a
second ship. -/
theorem c6_counterexample :
    (get_game engAB_bobShip "game1").map
        (fun g => pyGet2 (g.boards "bob") 0 0) = some (some "S") ∧
    (place_ships engAB_bobShip "game1" "bob" 0 0 3 "vertical").1 =
      some (mkRes "SHIP PLACED" "private") ∧
    (get_game (place_ships engAB_bobShip "game1" "bob" 0 0 3 "vertical").2
        "game1").map
        (fun g => ((g.placed_ships "bob").length,
          pyGet2 (g.boards "bob") 1 0)) =
      some (2, some "S") := by
  exact ⟨rfl, rfl, rfl⟩

/-! ## C7 — restart flags across create_game -/

/-- C7 (counterexample): the claim says that when the rematch path invokes
`create_game`, both players' restart flags are reset to false, so a single
further vote cannot immediately retrigger a restart. Running the deciding
vote on `engAB`/`hashC7` triggers the rematch, but both restart flags are
still `true` afterwards, and one further vote (by `"bob"`) immediately
triggers another restart. -/
theorem c7_counterexample :
    (action_restart_game engAB hashC7 "game1" "alice" true).map
        (fun o => (o.2.2, dlookup "alice" o.2.1, dlookup "bob" o.2.1)) =
      some (true, some ⟨false, false, true⟩, some ⟨false, false, true⟩) ∧
    ((action_restart_game engAB hashC7 "game1" "alice" true).bind
        (fun o => action_restart_game o.1 o.2.1 "game1" "bob" false)).map
        (fun o => o.2.2) =
      some true := by
  exact ⟨rfl, rfl⟩

/-! ## C9 — turn frozen after winner is set -/

/-- C9 (counterexample): the claim says that once `winner` is non-null no
further engine operation changes `turn`. In `engWon` the winner is
`"alice"` and the turn is `"bob"`; `"bob"`'s further `make_move` at
`(5,5)` is processed and flips `turn` to `"alice"`. -/
theorem c9_counterexample :
    (get_game engWon "game1").map (fun g => (g.winner, g.turn)) =
      some (some "alice", "bob") ∧
    (get_game (make_move engWon "game1" "bob" 5 5).2 "game1").map
        (fun g => (g.winner, g.turn)) =
      some (some "alice", "alice") := by
  exact ⟨rfl, rfl⟩

/-! ## C10 — lengths outside the inventory -/

/-- C10: the game-session handler forwards the client-supplied length to
`place_ships` unchecked, and for a length outside the fixed inventory
`{2,3,4,5}` the lookup `ships_left[length]` raises a `KeyError` (modelled
as a `none` result) with the engine unchanged, instead of returning a
result dict such as the `NO MORE SHIPS` error; an in-inventory length on
the same game returns an ordinary result dict. -/
theorem c10_bad_length_keyerror :
    (place_ships engAB "game1" "alice" 0 0 1 "horizontal").1 = none ∧
    (place_ships engAB "game1" "alice" 0 0 6 "horizontal").1 = none ∧
    (place_ships engAB "game1" "alice" 0 0 1 "horizontal").2 = engAB ∧
    (place_ships engAB "game1" "alice" 0 0 2 "horizontal").1 =
      some (mkRes "SHIP PLACED" "private") := by
  exact ⟨rfl, rfl, rfl, rfl⟩

theorem dlookup_dset_self {κ β : Type} [DecidableEq κ] (k : κ) (v : β)
    (l : List (κ × β)) : dlookup k (dset k v l) = some v := by
  induction l with
  | nil => simp [dset, dlookup]
  | cons kv rest ih =>
      obtain ⟨k2, v2⟩ := kv
      by_cases h : k = k2
      · simp [dset, dlookup, h]
      · simp [dset, dlookup, h, ih]

theorem pySet2_isSome (b : Board) (y x : Int) (c v : String)
    (h : pyGet2 b y x = some c) : ∃ b2, pySet2 b y x v = some b2 := by
  unfold pyGet2 pyGet at h
  unfold pySet2 pySet
  cases hy : pyIdx b.length y with
  | none => rw [hy] at h; simp at h
  | some ny =>
      rw [hy] at h
      simp only [Option.some_bind] at h ⊢
      cases hrow : b.get? ny with
      | none => rw [hrow] at h; simp at h
      | some row =>
          rw [hrow] at h
          simp only [Option.some_bind] at h ⊢
          cases hx : pyIdx row.length x with
          | none => rw [hx] at h; simp at h
          | some nx => simp [hx]

theorem c1_amended (e : Engine) (gid p : String) (g : Game) (enemy : String)
    (hg : get_game e gid = some g)
    (he : (g.players.filter (fun q => q ≠ p)).head? = some enemy) :
    ∃ st, get_game_state e gid p = some st ∧
      st.opponent_board = g.boards enemy ∧ st.winner = g.winner := by
  unfold get_game_state
  simp only [hg, he]
  exact ⟨_, rfl, rfl, rfl⟩

theorem c1_amended_witness :
    ∃ st, get_game_state engAB_bobShip "game1" "alice" = some st ∧
      st.opponent_board =
        ((get_game engAB_bobShip "game1").getD dummyGame).boards "bob" ∧
      st.winner = ((get_game engAB_bobShip "game1").getD dummyGame).winner :=
  c1_amended engAB_bobShip "game1" "alice"
    ((get_game engAB_bobShip "game1").getD dummyGame) "bob" rfl rfl

theorem c2_amended (e : Engine) (gid p : String) (x y : Int) (g : Game)
    (enemy cell : String)
    (hg : get_game e gid = some g)
    (he : (g.players.filter (fun q => q ≠ p)).head? = some enemy)
    (hh : pyGet2 (g.hits p) y x = some "")
    (hc : pyGet2 (g.boards enemy) y x = some cell) :
    ∃ r e2, make_move e gid p x y = (some r, e2) ∧
      r.access = "public" ∧ r.next_turn = some enemy := by
  obtain ⟨hbX, hsX⟩ := pySet2_isSome (g.hits p) y x "" "X" hh
  obtain ⟨hbO, hsO⟩ := pySet2_isSome (g.hits p) y x "" "O" hh
  unfold make_move
  by_cases hS : cell = "S"
  · subst hS
    rcases hfi : (g.placed_ships enemy).findIdx?
        (fun s => s.coords.contains (x, y)) with _ | i
    · simp only [hg, he, hh, hc, hsX, ne_eq, not_true_eq_false, if_false,
        reduceIte, hfi]
      exact ⟨_, _, rfl, rfl, rfl⟩
    · rcases hgi : (g.placed_ships enemy).get? i with _ | ship
      · simp only [hg, he, hh, hc, hsX, ne_eq, not_true_eq_false, if_false,
          reduceIte, hfi, hgi]
        exact ⟨_, _, rfl, rfl, rfl⟩
      · rcases hall : allHit hbX ship.coords with _ | _
        · simp only [hg, he, hh, hc, hsX, ne_eq, not_true_eq_false, if_false,
            reduceIte, hfi, hgi, hall, Bool.false_eq_true]
          exact ⟨_, _, rfl, rfl, rfl⟩
        · rcases hdone : ((g.placed_ships enemy).set i
              { ship with sunk := true }).all (fun s => s.sunk) with _ | _
          · simp only [hg, he, hh, hc, hsX, ne_eq, not_true_eq_false,
              if_false, reduceIte, hfi, hgi, hall, hdone, Bool.false_eq_true]
            exact ⟨_, _, rfl, rfl, rfl⟩
          · simp only [hg, he, hh, hc, hsX, ne_eq, not_true_eq_false,
              if_false, reduceIte, hfi, hgi, hall, hdone]
            exact ⟨_, _, rfl, rfl, rfl⟩
  · simp only [hg, he, hh, hc, hsO, ne_eq, not_true_eq_false, if_false,
      reduceIte, if_neg hS]
    exact ⟨_, _, rfl, rfl, rfl⟩

theorem c2_amended_witness :
    ∃ r e2, make_move engAB "game1" "bob" 0 0 = (some r, e2) ∧
      r.access = "public" ∧ r.next_turn = some "alice" :=
  c2_amended engAB "game1" "bob" 0 0
    ((get_game engAB "game1").getD dummyGame) "alice" "" rfl rfl rfl rfl

theorem c6_amended (e : Engine) (gid p : String) (xs ys : Int) (len : Nat)
    (o : String) (g : Game) (cnt : Nat)
    (hg : get_game e gid = some g)
    (hl : dlookup len (g.ships_left p) = some cnt)
    (hcnt : cnt ≠ 0)
    (hw : (writeCells "S" (g.boards p) (placeCoords xs ys len o)).2 = true) :
    ∃ e2, place_ships e gid p xs ys len o =
        (some (mkRes "SHIP PLACED" "private"), e2) ∧
      ∃ g2, get_game e2 gid = some g2 ∧
        g2.placed_ships p =
          g.placed_ships p ++ [⟨placeCoords xs ys len o, false⟩] ∧
        g2.boards p =
          (writeCells "S" (g.boards p) (placeCoords xs ys len o)).1 := by
  unfold place_ships
  simp only [hg, hl]
  rw [if_neg hcnt]
  have hpair : writeCells "S" (g.boards p) (placeCoords xs ys len o) =
      ((writeCells "S" (g.boards p) (placeCoords xs ys len o)).1, true) := by
    rw [← hw]
  rw [hpair]
  refine ⟨_, rfl, _, dlookup_dset_self _ _ _, ?_, ?_⟩
  · simp [upd]
  · simp [upd]

theorem c6_amended_witness :
    ∃ e2, place_ships engAB_bobShip "game1" "bob" 0 0 3 "vertical" =
        (some (mkRes "SHIP PLACED" "private"), e2) ∧
      ∃ g2, get_game e2 "game1" = some g2 ∧
        g2.placed_ships "bob" =
          ((get_game engAB_bobShip "game1").getD dummyGame).placed_ships "bob"
            ++ [⟨placeCoords 0 0 3 "vertical", false⟩] ∧
        g2.boards "bob" =
          (writeCells "S"
            (((get_game engAB_bobShip "game1").getD dummyGame).boards "bob")
            (placeCoords 0 0 3 "vertical")).1 :=
  c6_amended engAB_bobShip "game1" "bob" 0 0 3 "vertical"
    ((get_game engAB_bobShip "game1").getD dummyGame) 2 rfl rfl
    (by decide) rfl

theorem some_game_inj {g g2 : Game} (h : some g = some g2) : g2 = g :=
  (Option.some.inj h).symm

theorem get_game_dset (gid : String) (g2 : Game) (e : Engine) (g3 : Game)
    (h : get_game (dset gid g2 e) gid = some g3) : g3 = g2 := by
  unfold get_game at h
  rw [dlookup_dset_self] at h
  injection h with h
  exact h.symm

/-- Everything `make_move` can do to the stored game: either an error path
leaves the engine untouched, or the move is performed — `turn` becomes the
enemy, `boards`/`ships_left`/`ready`/`players` are untouched, `winner` is
unchanged or set to the mover, and each player's ship list is unchanged or
has exactly one ship's `sunk` flag set. -/
theorem make_move_state_cases (e : Engine) (gid p : String) (x y : Int)
    (g : Game) (hg : get_game e gid = some g) (g2 : Game)
    (h2 : get_game (make_move e gid p x y).2 gid = some g2) :
    g2 = g ∨
    ∃ enemy, (g.players.filter (fun q => q ≠ p)).head? = some enemy ∧
      g2.turn = enemy ∧ g2.players = g.players ∧ g2.boards = g.boards ∧
      g2.ships_left = g.ships_left ∧ g2.ready = g.ready ∧
      (g2.winner = g.winner ∨ g2.winner = some p) ∧
      (∀ q, g2.placed_ships q = g.placed_ships q ∨
        ∃ i ship, (g.placed_ships q).get? i = some ship ∧
          g2.placed_ships q = (g.placed_ships q).set i
            { ship with sunk := true }) := by
  rcases he : (g.players.filter (fun q => q ≠ p)).head? with _ | enemy
  · unfold make_move at h2
    simp only [hg, he] at h2
    exact Or.inl (some_game_inj h2)
  rcases hhit : pyGet2 (g.hits p) y x with _ | hcell
  · unfold make_move at h2
    simp only [hg, he, hhit] at h2
    exact Or.inl (some_game_inj h2)
  by_cases hcl : hcell = ""
  case neg =>
    unfold make_move at h2
    simp only [hg, he, hhit, ne_eq, hcl, not_false_eq_true, if_true,
      reduceIte] at h2
    exact Or.inl (some_game_inj h2)
  subst hcl
  rcases hec : pyGet2 (g.boards enemy) y x with _ | ecell
  · unfold make_move at h2
    simp only [hg, he, hhit, hec, ne_eq, not_true_eq_false, if_false,
      reduceIte] at h2
    exact Or.inl (some_game_inj h2)
  by_cases hS : ecell = "S"
  case neg =>
    rcases hsO : pySet2 (g.hits p) y x "O" with _ | hb2
    · unfold make_move at h2
      simp only [hg, he, hhit, hec, hsO, ne_eq, not_true_eq_false, if_false,
        reduceIte, if_neg hS] at h2
      exact Or.inl (some_game_inj h2)
    · unfold make_move at h2
      simp only [hg, he, hhit, hec, hsO, ne_eq, not_true_eq_false, if_false,
        reduceIte, if_neg hS] at h2
      have hgame := get_game_dset _ _ _ _ h2
      subst hgame
      exact Or.inr ⟨enemy, rfl, rfl, rfl, rfl, rfl, rfl, Or.inl rfl,
        fun q => Or.inl rfl⟩
  subst hS
  rcases hsX : pySet2 (g.hits p) y x "X" with _ | hb2
  · unfold make_move at h2
    simp only [hg, he, hhit, hec, hsX, ne_eq, not_true_eq_false, if_false,
      reduceIte] at h2
    exact Or.inl (some_game_inj h2)
  rcases hfi : (g.placed_ships enemy).findIdx?
      (fun s => s.coords.contains (x, y)) with _ | i
  · unfold make_move at h2
    simp only [hg, he, hhit, hec, hsX, hfi, ne_eq, not_true_eq_false,
      if_false, reduceIte] at h2
    have hgame := get_game_dset _ _ _ _ h2
    subst hgame
    exact Or.inr ⟨enemy, rfl, rfl, rfl, rfl, rfl, rfl, Or.inl rfl,
      fun q => Or.inl rfl⟩
  rcases hgi : (g.placed_ships enemy).get? i with _ | ship
  · unfold make_move at h2
    simp only [hg, he, hhit, hec, hsX, hfi, hgi, ne_eq, not_true_eq_false,
      if_false, reduceIte] at h2
    have hgame := get_game_dset _ _ _ _ h2
    subst hgame
    exact Or.inr ⟨enemy, rfl, rfl, rfl, rfl, rfl, rfl, Or.inl rfl,
      fun q => Or.inl rfl⟩
  rcases hall : allHit hb2 ship.coords with _ | _
  · unfold make_move at h2
    simp only [hg, he, hhit, hec, hsX, hfi, hgi, hall, ne_eq,
      not_true_eq_false, if_false, reduceIte, Bool.false_eq_true] at h2
    have hgame := get_game_dset _ _ _ _ h2
    subst hgame
    exact Or.inr ⟨enemy, rfl, rfl, rfl, rfl, rfl, rfl, Or.inl rfl,
      fun q => Or.inl rfl⟩
  have hps : ∀ q,
      (upd g.placed_ships enemy
          ((g.placed_ships enemy).set i { ship with sunk := true })) q =
        g.placed_ships q ∨
      ∃ i2 ship2, (g.placed_ships q).get? i2 = some ship2 ∧
        (upd g.placed_ships enemy
            ((g.placed_ships enemy).set i { ship with sunk := true })) q =
          (g.placed_ships q).set i2 { ship2 with sunk := true } := by
    intro q
    by_cases hq : q = enemy
    · subst hq
      exact Or.inr ⟨i, ship, hgi, by simp [upd]⟩
    · exact Or.inl (by simp [upd, hq])
  rcases hdone : ((g.placed_ships enemy).set i
      { ship with sunk := true }).all (fun s => s.sunk) with _ | _
  · unfold make_move at h2
    simp only [hg, he, hhit, hec, hsX, hfi, hgi, hall, hdone, ne_eq,
      not_true_eq_false, if_false, reduceIte, Bool.false_eq_true] at h2
    have hgame := get_game_dset _ _ _ _ h2
    subst hgame
    exact Or.inr ⟨enemy, rfl, rfl, rfl, rfl, rfl, rfl, Or.inl rfl, hps⟩
  · unfold make_move at h2
    simp only [hg, he, hhit, hec, hsX, hfi, hgi, hall, hdone, ne_eq,
      not_true_eq_false, if_false, reduceIte] at h2
    have hgame := get_game_dset _ _ _ _ h2
    subst hgame
    exact Or.inr ⟨enemy, rfl, rfl, rfl, rfl, rfl, rfl, Or.inr rfl, hps⟩

/-- `place_ships` never touches `turn`, `winner`, `hits` or `ready`. -/
theorem place_ships_preserves (e : Engine) (gid p : String) (x y : Int)
    (len : Nat) (o : String) (g : Game) (hg : get_game e gid = some g)
    (g2 : Game)
    (h2 : get_game (place_ships e gid p x y len o).2 gid = some g2) :
    g2.turn = g.turn ∧ g2.winner = g.winner ∧ g2.hits = g.hits ∧
      g2.ready = g.ready := by
  rcases hdl : dlookup len (g.ships_left p) with _ | cnt
  · unfold place_ships at h2
    simp only [hg, hdl] at h2
    have h3 := some_game_inj h2
    subst h3
    exact ⟨rfl, rfl, rfl, rfl⟩
  by_cases hc : cnt = 0
  · unfold place_ships at h2
    simp only [hg, hdl, hc, reduceIte] at h2
    have h3 := some_game_inj h2
    subst h3
    exact ⟨rfl, rfl, rfl, rfl⟩
  rcases hwc : writeCells "S" (g.boards p) (placeCoords x y len o)
      with ⟨b2, _ | _⟩
  · unfold place_ships at h2
    simp only [hg, hdl, hwc, if_neg hc] at h2
    have := get_game_dset _ _ _ _ h2
    subst this
    exact ⟨rfl, rfl, rfl, rfl⟩
  · unfold place_ships at h2
    simp only [hg, hdl, hwc, if_neg hc] at h2
    have := get_game_dset _ _ _ _ h2
    subst this
    exact ⟨rfl, rfl, rfl, rfl⟩

/-- `remove_ship` never touches `turn`, `winner`, `hits` or `ready`. -/
theorem remove_ship_preserves (e : Engine) (gid p : String) (x y : Int)
    (g : Game) (hg : get_game e gid = some g) (g2 : Game)
    (h2 : get_game (remove_ship e gid p x y).2 gid = some g2) :
    g2.turn = g.turn ∧ g2.winner = g.winner ∧ g2.hits = g.hits ∧
      g2.ready = g.ready := by
  rcases hf : (g.placed_ships p).find? (fun s => s.coords.contains (x, y))
      with _ | ship
  · unfold remove_ship at h2
    simp only [hg, hf] at h2
    have h3 := some_game_inj h2
    subst h3
    exact ⟨rfl, rfl, rfl, rfl⟩
  rcases hwc : writeCells "" (g.boards p) ship.coords with ⟨b2, _ | _⟩
  · unfold remove_ship at h2
    simp only [hg, hf, hwc] at h2
    have := get_game_dset _ _ _ _ h2
    subst this
    exact ⟨rfl, rfl, rfl, rfl⟩
  rcases hdl : dlookup ship.coords.length (g.ships_left p) with _ | cnt
  · unfold remove_ship at h2
    simp only [hg, hf, hwc, hdl] at h2
    have := get_game_dset _ _ _ _ h2
    subst this
    exact ⟨rfl, rfl, rfl, rfl⟩
  · unfold remove_ship at h2
    simp only [hg, hf, hwc, hdl] at h2
    have := get_game_dset _ _ _ _ h2
    subst this
    exact ⟨rfl, rfl, rfl, rfl⟩

/-- `set_ready` never touches `turn`, `winner`, `hits` or `placed_ships`. -/
theorem set_ready_preserves (e : Engine) (gid p : String) (g : Game)
    (hg : get_game e gid = some g) (g2 : Game)
    (h2 : get_game (set_ready e gid p).2 gid = some g2) :
    g2.turn = g.turn ∧ g2.winner = g.winner ∧ g2.hits = g.hits ∧
      g2.placed_ships = g.placed_ships := by
  by_cases ha : (g.ships_left p).any (fun kv => 0 < kv.2)
  · unfold set_ready at h2
    simp only [hg, ha, reduceIte] at h2
    have h3 := some_game_inj h2
    subst h3
    exact ⟨rfl, rfl, rfl, rfl⟩
  · unfold set_ready at h2
    simp only [hg, ha, reduceIte] at h2
    have := get_game_dset _ _ _ _ h2
    subst this
    exact ⟨rfl, rfl, rfl, rfl⟩

theorem sunkCount_set_sunk (ships : List Ship) (i : Nat) (s2 : Ship)
    (h2 : s2.sunk = true) :
    sunkCount ships ≤ sunkCount (ships.set i s2) := by
  induction ships generalizing i with
  | nil => simp [sunkCount]
  | cons s rest ih =>
      cases i with
      | zero =>
          simp only [List.set_cons_zero, sunkCount, List.countP_cons, h2]
          cases h : s.sunk <;> simp [h]
      | succ n =>
          have hrec := ih n
          simp only [List.set_cons_succ, sunkCount, List.countP_cons]
          simp only [sunkCount] at hrec
          omega

/-- C9 (amended): once `winner` is non-null, `place_ships`, `remove_ship`
and `set_ready` indeed never change `turn`, but `make_move` is not blocked:
any state change it makes sets `turn` to the mover's opponent (so a move by
the player holding the turn after the winning shot — the loser — changes
`turn`). -/
theorem c9_amended (e : Engine) (gid p w : String) (x y : Int) (len : Nat)
    (o : String) (g : Game)
    (hg : get_game e gid = some g) (hw : g.winner = some w) :
    (∀ g2, get_game (place_ships e gid p x y len o).2 gid = some g2 →
      g2.turn = g.turn) ∧
    (∀ g2, get_game (remove_ship e gid p x y).2 gid = some g2 →
      g2.turn = g.turn) ∧
    (∀ g2, get_game (set_ready e gid p).2 gid = some g2 →
      g2.turn = g.turn) ∧
    (∀ g2, get_game (make_move e gid p x y).2 gid = some g2 →
      g2.turn = g.turn ∨
      ∃ enemy, (g.players.filter (fun q => q ≠ p)).head? = some enemy ∧
        g2.turn = enemy) := by
  refine ⟨?_, ?_, ?_, ?_⟩
  · intro g2 h2
    exact (place_ships_preserves e gid p x y len o g hg g2 h2).1
  · intro g2 h2
    exact (remove_ship_preserves e gid p x y g hg g2 h2).1
  · intro g2 h2
    exact (set_ready_preserves e gid p g hg g2 h2).1
  · intro g2 h2
    rcases make_move_state_cases e gid p x y g hg g2 h2 with
      rfl | ⟨enemy, hE, hturn, _⟩
    · exact Or.inl rfl
    · exact Or.inr ⟨enemy, hE, hturn⟩

/-- C9 (amended) witness, at the reachable won game `engWon` (winner
`"alice"`, turn `"bob"`, the concrete scenario of the counterexample). -/
theorem c9_amended_witness :
    (∀ g2, get_game
        (place_ships engWon "game1" "bob" 5 5 3 "vertical").2 "game1" =
          some g2 →
      g2.turn = ((get_game engWon "game1").getD dummyGame).turn) ∧
    (∀ g2, get_game (remove_ship engWon "game1" "bob" 5 5).2 "game1" =
          some g2 →
      g2.turn = ((get_game engWon "game1").getD dummyGame).turn) ∧
    (∀ g2, get_game (set_ready engWon "game1" "bob").2 "game1" = some g2 →
      g2.turn = ((get_game engWon "game1").getD dummyGame).turn) ∧
    (∀ g2, get_game (make_move engWon "game1" "bob" 5 5).2 "game1" =
          some g2 →
      g2.turn = ((get_game engWon "game1").getD dummyGame).turn ∨
      ∃ enemy,
        (((get_game engWon "game1").getD dummyGame).players.filter
            (fun q => q ≠ "bob")).head? = some enemy ∧
        g2.turn = enemy) :=
  c9_amended engWon "game1" "bob" "alice" 5 5 3 "vertical"
    ((get_game engWon "game1").getD dummyGame) rfl rfl

/-- C8: across `make_move` the number of sunk ships of either player never
decreases and a non-null `winner` stays non-null; `place_ships`,
`remove_ship` and `set_ready` leave `winner` unchanged (so only
`create_game`, which reinitializes the game, or `end_game`, which deletes
it, can reset `winner` to null). -/
theorem c8_sunk_monotone_winner_stable (e : Engine) (gid p q : String)
    (x y : Int) (len : Nat) (o : String) (g : Game)
    (hg : get_game e gid = some g) :
    (∀ g2, get_game (make_move e gid p x y).2 gid = some g2 →
      sunkCount (g.placed_ships q) ≤ sunkCount (g2.placed_ships q) ∧
      (g.winner ≠ none → g2.winner ≠ none)) ∧
    (∀ g2, get_game (place_ships e gid p x y len o).2 gid = some g2 →
      g2.winner = g.winner) ∧
    (∀ g2, get_game (remove_ship e gid p x y).2 gid = some g2 →
      g2.winner = g.winner) ∧
    (∀ g2, get_game (set_ready e gid p).2 gid = some g2 →
      g2.winner = g.winner) := by
  refine ⟨?_, ?_, ?_, ?_⟩
  · intro g2 h2
    rcases make_move_state_cases e gid p x y g hg g2 h2 with
      rfl | ⟨enemy, _, _, _, _, _, _, hwin, hps⟩
    · exact ⟨le_refl _, fun h => h⟩
    constructor
    · rcases hps q with hq | ⟨i, ship, hi, hq⟩
      · rw [hq]
      · rw [hq]
        exact sunkCount_set_sunk _ i _ rfl
    · rcases hwin with hW | hW <;> rw [hW]
      · exact fun h => h
      · intro _
        simp
  · intro g2 h2
    exact (place_ships_preserves e gid p x y len o g hg g2 h2).2.1
  · intro g2 h2
    exact (remove_ship_preserves e gid p x y g hg g2 h2).2.1
  · intro g2 h2
    exact (set_ready_preserves e gid p g hg g2 h2).2.1

/-- C8 witness, at the reachable state `engAB_bobShip`. -/
theorem c8_witness :
    (∀ g2, get_game (make_move engAB_bobShip "game1" "alice" 0 0).2
          "game1" = some g2 →
      sunkCount (((get_game engAB_bobShip "game1").getD
          dummyGame).placed_ships "bob") ≤
        sunkCount (g2.placed_ships "bob") ∧
      (((get_game engAB_bobShip "game1").getD dummyGame).winner ≠ none →
        g2.winner ≠ none)) ∧
    (∀ g2, get_game
        (place_ships engAB_bobShip "game1" "alice" 0 0 2 "horizontal").2
          "game1" = some g2 →
      g2.winner = ((get_game engAB_bobShip "game1").getD dummyGame).winner) ∧
    (∀ g2, get_game (remove_ship engAB_bobShip "game1" "alice" 0 0).2
          "game1" = some g2 →
      g2.winner = ((get_game engAB_bobShip "game1").getD dummyGame).winner) ∧
    (∀ g2, get_game (set_ready engAB_bobShip "game1" "alice").2 "game1" =
          some g2 →
      g2.winner = ((get_game engAB_bobShip "game1").getD dummyGame).winner) :=
  c8_sunk_monotone_winner_stable engAB_bobShip "game1" "alice" "bob" 0 0 2
    "horizontal" ((get_game engAB_bobShip "game1").getD dummyGame) rfl

theorem listLtB_asymm (xs ys : List Char) (h : listLtB xs ys = true) :
    listLtB ys xs = false := by
  induction xs generalizing ys with
  | nil =>
      cases ys with
      | nil => simp [listLtB] at h
      | cons b bs => simp [listLtB]
  | cons a as ih =>
      cases ys with
      | nil => simp [listLtB] at h
      | cons b bs =>
          simp only [listLtB] at h ⊢
          by_cases hab : a < b
          · have hba : ¬ b < a := lt_asymm hab
            simp [hab, hba]
          · by_cases hba : b < a
            · simp [hab, hba] at h
            · simp only [hab, hba, if_false, reduceIte] at h ⊢
              exact ih bs h

theorem sorted2_not_lt (l : List String) (p1 p2 : String)
    (h : sorted2 l = some (p1, p2)) : strLtB p2 p1 = false := by
  cases l with
  | nil => simp [sorted2] at h
  | cons a t =>
      cases t with
      | nil => simp [sorted2] at h
      | cons b t2 =>
          cases t2 with
          | cons c t3 => simp [sorted2] at h
          | nil =>
              simp only [sorted2] at h
              rcases hab : strLtB b a with _ | _
              · simp only [hab, Bool.false_eq_true, if_false,
                  Option.some.injEq, Prod.mk.injEq] at h
                obtain ⟨h1, h2⟩ := h
                subst h1; subst h2
                exact hab
              · simp only [hab, if_true, Option.some.injEq,
                  Prod.mk.injEq] at h
                obtain ⟨h1, h2⟩ := h
                subst h1; subst h2
                exact listLtB_asymm _ _ hab

theorem mem_dset {κ β : Type} [DecidableEq κ] (k : κ) (v : β)
    (l : List (κ × β)) (kv : κ × β) (h : kv ∈ dset k v l) :
    kv = (k, v) ∨ kv ∈ l := by
  induction l with
  | nil =>
      simp only [dset, List.mem_singleton] at h
      exact Or.inl h
  | cons kv2 rest ih =>
      obtain ⟨k2, v2⟩ := kv2
      by_cases hk : k = k2
      · simp only [dset, if_pos hk, List.mem_cons] at h
        rcases h with h | h
        · exact Or.inl h
        · exact Or.inr (List.mem_cons_of_mem _ h)
      · simp only [dset, if_neg hk, List.mem_cons] at h
        rcases h with h | h
        · exact Or.inr (h ▸ List.mem_cons_self _ _)
        · rcases ih h with h2 | h2
          · exact Or.inl h2
          · exact Or.inr (List.mem_cons_of_mem _ h2)

theorem all_status_restart_dset (h : StatusHash) (u : String)
    (st : PlayerStatus) (hall : all_status_restart h = true)
    (hst : st.restart = true) :
    all_status_restart (dset u st h) = true := by
  simp only [all_status_restart, List.all_eq_true] at hall ⊢
  intro kv hkv
  rcases mem_dset u st h kv hkv with rfl | hkv2
  · exact hst
  · exact hall kv hkv2

/-- C7 (amended): `create_game` leaves the per-match status hash untouched
and `action_restart_game` never resets restart flags; consequently, right
after a triggered rematch every restart flag in the hash is still true, and
a single further `restart_game` vote by any player present in the hash
immediately triggers another restart. -/
theorem c7_amended (e : Engine) (h : StatusHash) (gid user u2 : String)
    (coin coin2 : Bool) (e2 : Engine) (h2 : StatusHash)
    (hrun : action_restart_game e h gid user coin = some (e2, h2, true))
    (hu2 : dlookup u2 h2 ≠ none) :
    (∀ kv ∈ h2, kv.2.restart = true) ∧
    (action_restart_game e2 h2 gid u2 coin2).map (fun o => o.2.2) =
      some true := by
  unfold action_restart_game at hrun
  rcases hgot : get_game e gid with _ | game
  · simp only [hgot] at hrun
    exact Option.noConfusion hrun
  rcases hs2 : sorted2 game.players with _ | ⟨p1, p2⟩
  · simp only [hgot, hs2] at hrun
    exact Option.noConfusion hrun
  rcases hset : set_status_restart h user true with _ | hh2
  · simp only [hgot, hs2, hset] at hrun
    exact Option.noConfusion hrun
  rcases hall : all_status_restart hh2 with _ | _
  · simp only [hgot, hs2, hset, hall, Bool.false_eq_true, if_false,
      reduceIte, Option.some.injEq, Prod.mk.injEq] at hrun
    obtain ⟨-, -, hbad⟩ := hrun
    exact absurd hbad (by decide)
  simp only [hgot, hs2, hset, hall, if_true, reduceIte, Option.some.injEq,
    Prod.mk.injEq] at hrun
  obtain ⟨he2, hh2eq, -⟩ := hrun
  subst he2
  subst hh2eq
  constructor
  · intro kv hkv
    simp only [all_status_restart, List.all_eq_true] at hall
    exact hall kv hkv
  · have hg2 : get_game (create_game e gid p1 p2 coin) gid =
        some { players := [p1, p2]
               boards := fun _ => create_empty_board
               hits := fun _ => create_empty_board
               ships_left := fun _ => [(2, 1), (3, 2), (4, 1), (5, 1)]
               placed_ships := fun _ => []
               ready := fun _ => false
               turn := if coin then p1 else p2
               winner := none } := by
      unfold create_game get_game
      exact dlookup_dset_self _ _ _
    have hsort : sorted2 [p1, p2] = some (p1, p2) := by
      simp [sorted2, sorted2_not_lt game.players p1 p2 hs2]
    rcases hlu : dlookup u2 hh2 with _ | st
    · exact absurd hlu hu2
    have hset2 : set_status_restart hh2 u2 true =
        some (dset u2 { st with restart := true } hh2) := by
      simp [set_status_restart, hlu]
    have hall2 : all_status_restart
        (dset u2 { st with restart := true } hh2) = true :=
      all_status_restart_dset hh2 u2 _ hall rfl
    unfold action_restart_game
    simp [hg2, hsort, hset2, hall2]

/-- C7 (amended) witness: the concrete deciding vote of the counterexample
scenario; afterwards both flags are true and `"bob"`'s single vote
retriggers. -/
theorem c7_amended_witness :
    (∀ kv ∈ ((action_restart_game engAB hashC7 "game1" "alice" true).getD
        ([], [], false)).2.1, kv.2.restart = true) ∧
    (action_restart_game
        ((action_restart_game engAB hashC7 "game1" "alice" true).getD
          ([], [], false)).1
        ((action_restart_game engAB hashC7 "game1" "alice" true).getD
          ([], [], false)).2.1
        "game1" "bob" false).map (fun o => o.2.2) =
      some true :=
  c7_amended engAB hashC7 "game1" "alice" "bob" true false
    ((action_restart_game engAB hashC7 "game1" "alice" true).getD
      ([], [], false)).1
    ((action_restart_game engAB hashC7 "game1" "alice" true).getD
      ([], [], false)).2.1
    rfl (by decide)

theorem pyIdx_lt (n : Nat) (i : Int) (m : Nat) (h : pyIdx n i = some m) :
    m < n := by
  unfold pyIdx at h
  split_ifs at h with h1 h2 h3
  · injection h with h
    omega
  · injection h with h
    omega

theorem pyGet_set_self {α : Type} (l : List α) (i : Int) (m : Nat) (v : α)
    (hm : pyIdx l.length i = some m) : pyGet (l.set m v) i = some v := by
  unfold pyGet
  rw [List.length_set, hm]
  simp only [Option.some_bind]
  rw [List.get?_eq_getElem?]
  exact List.getElem?_set_self (pyIdx_lt _ _ _ hm)

theorem pyGet_pySet_self {α : Type} (l : List α) (i : Int) (v : α)
    (l2 : List α) (h : pySet l i v = some l2) : pyGet l2 i = some v := by
  unfold pySet at h
  cases hm : pyIdx l.length i with
  | none => rw [hm] at h; simp at h
  | some m =>
      rw [hm] at h
      simp only [Option.map_some'] at h
      injection h with h
      rw [← h]
      exact pyGet_set_self l i m v hm

theorem pyGet2_pySet2_self (b : Board) (y x : Int) (v : String) (b2 : Board)
    (h : pySet2 b y x v = some b2) : pyGet2 b2 y x = some v := by
  unfold pySet2 at h
  cases hy : pyIdx b.length y with
  | none => rw [hy] at h; simp at h
  | some ny =>
      rw [hy] at h
      simp only [Option.some_bind] at h
      cases hrow : b.get? ny with
      | none => rw [hrow] at h; simp at h
      | some row =>
          rw [hrow] at h
          simp only [Option.some_bind] at h
          cases hps : pySet row x v with
          | none => rw [hps] at h; simp at h
          | some row2 =>
              rw [hps] at h
              simp only [Option.map_some'] at h
              injection h with h
              subst h
              unfold pyGet2
              have hgy : pyGet (b.set ny row2) y = some row2 :=
                pyGet_set_self b y ny row2 hy
              rw [hgy]
              simp only [Option.some_bind]
              -- row2 came from a successful pySet on row
              have : pySet row x v = some row2 := hps
              unfold pySet at this
              cases hx : pyIdx row.length x with
              | none => rw [hx] at this; simp at this
              | some nx =>
                  rw [hx] at this
                  simp only [Option.map_some'] at this
                  injection this with this
                  rw [← this]
                  exact pyGet_set_self row x nx v hx

theorem findIdx?_of_countP_le_one {α : Type} (pred : α → Bool)
    (l : List α) (i : Nat) (a : α)
    (hcount : l.countP pred ≤ 1)
    (hi : l.get? i = some a) (ha : pred a = true) :
    l.findIdx? pred = some i := by
  induction l generalizing i with
  | nil => simp at hi
  | cons b rest ih =>
      cases i with
      | zero =>
          rw [List.get?_cons_zero] at hi
          injection hi with hi
          subst hi
          simp [List.findIdx?_cons, ha]
      | succ n =>
          rw [List.get?_cons_succ] at hi
          have hmem : a ∈ rest := List.get?_mem hi
          rcases hb : pred b with _ | _
          · have hcount2 : rest.countP pred ≤ 1 := by
              rw [List.countP_cons, hb] at hcount
              simpa using hcount
            have hrec := ih n hcount2 hi
            simp only [List.findIdx?_cons, hb, Bool.false_eq_true, if_false,
              reduceIte, Nat.zero_add, List.findIdx?_succ, hrec,
              Option.map_some']
          · exfalso
            have h1 : 0 < rest.countP pred :=
              List.countP_pos_iff.mpr ⟨a, hmem, ha⟩
            simp only [List.countP_cons, hb, if_true, reduceIte] at hcount
            omega

/-- C4: for every `make_move` call satisfying the claimed preconditions
(game exists, `turn == player`, both players ready, fresh target cell, and —
per the spec's uniqueness invariant — at most one enemy ship containing the
target): on an `"S"` cell the hit board gains `"X"` there, the containing
ship is marked sunk exactly when all of its coords are now `"X"` (result
`SUNK`), and `winner` is set to the player exactly when additionally every
enemy ship is sunk (result `WIN`); on an empty cell the hit board gains
`"O"` (result `MISSED`); in all cases the result is public and `turn`
becomes the opponent. -/
theorem c4_make_move_correct (e : Engine) (gid p : String) (x y : Int)
    (g : Game) (enemy cell : String)
    (hg : get_game e gid = some g)
    (he : (g.players.filter (fun q => q ≠ p)).head? = some enemy)
    (_hturn : g.turn = p)
    (_hrdy1 : g.ready p = true) (_hrdy2 : g.ready enemy = true)
    (hfresh : pyGet2 (g.hits p) y x = some "")
    (hcell : pyGet2 (g.boards enemy) y x = some cell)
    (hval : cell = "S" ∨ cell = "")
    (huniq : (g.placed_ships enemy).countP
        (fun s => s.coords.contains (x, y)) ≤ 1) :
    ∃ r g2, make_move e gid p x y = (some r, dset gid g2 e) ∧
      r.access = "public" ∧ r.next_turn = some enemy ∧ g2.turn = enemy ∧
      (cell = "" →
        pySet2 (g.hits p) y x "O" = some (g2.hits p) ∧
        pyGet2 (g2.hits p) y x = some "O" ∧
        r.result = pyUpper p ++ " MISSED" ∧
        g2.placed_ships enemy = g.placed_ships enemy ∧
        g2.winner = g.winner) ∧
      (cell = "S" →
        pySet2 (g.hits p) y x "X" = some (g2.hits p) ∧
        pyGet2 (g2.hits p) y x = some "X" ∧
        (∀ i ship, (g.placed_ships enemy).get? i = some ship →
          ship.coords.contains (x, y) = true →
          (allHit (g2.hits p) ship.coords = true →
            g2.placed_ships enemy =
              (g.placed_ships enemy).set i { ship with sunk := true } ∧
            (((g.placed_ships enemy).set i { ship with sunk := true }).all
                (fun s => s.sunk) = true →
              r.result = "GAME OVER! " ++ pyUpper p ++ " WON!" ∧
              g2.winner = some p) ∧
            (((g.placed_ships enemy).set i { ship with sunk := true }).all
                (fun s => s.sunk) = false →
              r.result = pyUpper p ++ " SUNK ENEMY SHIP" ∧
              g2.winner = g.winner)) ∧
          (allHit (g2.hits p) ship.coords = false →
            r.result = pyUpper p ++ " LANDED A HIT" ∧
            g2.placed_ships enemy = g.placed_ships enemy ∧
            g2.winner = g.winner))) := by
  unfold make_move
  rcases hval with hS | hE
  · subst hS
    obtain ⟨hbX, hsX⟩ := pySet2_isSome (g.hits p) y x "" "X" hfresh
    have hgetX : pyGet2 hbX y x = some "X" :=
      pyGet2_pySet2_self _ _ _ _ _ hsX
    rcases hfi : (g.placed_ships enemy).findIdx?
        (fun s => s.coords.contains (x, y)) with _ | j
    · simp only [hg, he, hfresh, hcell, hsX, hfi, ne_eq, not_true_eq_false,
        if_false, reduceIte]
      refine ⟨_, _, rfl, rfl, rfl, rfl, ?_, ?_⟩
      · intro hbad
        exact absurd hbad (by decide)
      · intro _
        refine ⟨by simp [upd], by simpa [upd] using hgetX, ?_⟩
        intro i ship hgi hcont
        have hno := List.findIdx?_eq_none_iff.mp hfi ship (List.get?_mem hgi)
        rw [hcont] at hno
        exact absurd hno (by decide)
    · have hspec := List.findIdx?_eq_some_iff_getElem.mp hfi
      obtain ⟨hjlt, hpj, -⟩ := hspec
      have hgj : (g.placed_ships enemy).get? j =
          some ((g.placed_ships enemy)[j]) := by
        rw [List.get?_eq_getElem?, List.getElem?_eq_getElem hjlt]
      have hcontj : ((g.placed_ships enemy)[j]).coords.contains (x, y) =
          true := by simpa using hpj
      rcases hall : allHit hbX ((g.placed_ships enemy)[j]).coords with _ | _
      · simp only [hg, he, hfresh, hcell, hsX, hfi, hgj, hall, ne_eq,
          not_true_eq_false, if_false, reduceIte, Bool.false_eq_true]
        refine ⟨_, _, rfl, rfl, rfl, rfl, ?_, ?_⟩
        · intro hbad
          exact absurd hbad (by decide)
        · intro _
          refine ⟨by simp [upd], by simpa [upd] using hgetX, ?_⟩
          intro i ship hgi hcont
          have hfi2 := findIdx?_of_countP_le_one _ _ i ship huniq hgi hcont
          rw [hfi] at hfi2
          injection hfi2 with hij
          subst hij
          have hship : ship = (g.placed_ships enemy)[j] := by
            rw [hgj] at hgi
            exact (Option.some.inj hgi).symm
          subst hship
          constructor
          · intro hallT
            rw [show (⟨g.players, g.boards, upd g.hits p hbX, g.ships_left,
                g.placed_ships, g.ready, enemy, g.winner⟩ : Game).hits p
                = hbX from by simp [upd]] at hallT
            rw [hall] at hallT
            exact absurd hallT (by decide)
          · intro _
            exact ⟨rfl, rfl, rfl⟩
      · rcases hdone : ((g.placed_ships enemy).set j
            { (g.placed_ships enemy)[j] with sunk := true }).all
            (fun s => s.sunk) with _ | _
        · simp only [hg, he, hfresh, hcell, hsX, hfi, hgj, hall, hdone,
            ne_eq, not_true_eq_false, if_false, reduceIte,
            Bool.false_eq_true]
          refine ⟨_, _, rfl, rfl, rfl, rfl, ?_, ?_⟩
          · intro hbad
            exact absurd hbad (by decide)
          · intro _
            refine ⟨by simp [upd], by simpa [upd] using hgetX, ?_⟩
            intro i ship hgi hcont
            have hfi2 := findIdx?_of_countP_le_one _ _ i ship huniq hgi hcont
            rw [hfi] at hfi2
            injection hfi2 with hij
            subst hij
            have hship : ship = (g.placed_ships enemy)[j] := by
              rw [hgj] at hgi
              exact (Option.some.inj hgi).symm
            subst hship
            constructor
            · intro _
              refine ⟨by simp [upd], ?_, ?_⟩
              · intro hbad
                rw [hdone] at hbad
                exact absurd hbad (by decide)
              · intro _
                exact ⟨rfl, rfl⟩
            · intro hallF
              rw [show (⟨g.players, g.boards, upd g.hits p hbX,
                  g.ships_left, upd g.placed_ships enemy
                    ((g.placed_ships enemy).set j
                      { (g.placed_ships enemy)[j] with sunk := true }),
                  g.ready, enemy, g.winner⟩ : Game).hits p
                  = hbX from by simp [upd]] at hallF
              rw [hall] at hallF
              exact absurd hallF (by decide)
        · simp only [hg, he, hfresh, hcell, hsX, hfi, hgj, hall, hdone,
            ne_eq, not_true_eq_false, if_false, reduceIte]
          refine ⟨_, _, rfl, rfl, rfl, rfl, ?_, ?_⟩
          · intro hbad
            exact absurd hbad (by decide)
          · intro _
            refine ⟨by simp [upd], by simpa [upd] using hgetX, ?_⟩
            intro i ship hgi hcont
            have hfi2 := findIdx?_of_countP_le_one _ _ i ship huniq hgi hcont
            rw [hfi] at hfi2
            injection hfi2 with hij
            subst hij
            have hship : ship = (g.placed_ships enemy)[j] := by
              rw [hgj] at hgi
              exact (Option.some.inj hgi).symm
            subst hship
            constructor
            · intro _
              refine ⟨by simp [upd], ?_, ?_⟩
              · intro _
                exact ⟨rfl, rfl⟩
              · intro hbad
                rw [hdone] at hbad
                exact absurd hbad (by decide)
            · intro hallF
              rw [show (⟨g.players, g.boards, upd g.hits p hbX,
                  g.ships_left, upd g.placed_ships enemy
                    ((g.placed_ships enemy).set j
                      { (g.placed_ships enemy)[j] with sunk := true }),
                  g.ready, enemy, some p⟩ : Game).hits p
                  = hbX from by simp [upd]] at hallF
              rw [hall] at hallF
              exact absurd hallF (by decide)
  · subst hE
    obtain ⟨hbO, hsO⟩ := pySet2_isSome (g.hits p) y x "" "O" hfresh
    have hgetO : pyGet2 hbO y x = some "O" :=
      pyGet2_pySet2_self _ _ _ _ _ hsO
    simp only [hg, he, hfresh, hcell, hsO, ne_eq, not_true_eq_false,
      if_false, reduceIte]
    refine ⟨_, _, rfl, rfl, rfl, rfl, ?_, ?_⟩
    · intro _
      exact ⟨by simp [upd], by simpa [upd] using hgetO, rfl,
        rfl, rfl⟩
    · intro hbad
      exact absurd hbad (by decide)

/-- C4 witness: in the fully set-up match `engC4` (alice's turn, both
ready), alice fires at `(0,0)`, a cell of bob's length-2 ship. -/
theorem c4_make_move_correct_witness :
    ∃ r g2, make_move engC4 "game4" "alice" 0 0 =
        (some r, dset "game4" g2 engC4) ∧
      r.access = "public" ∧ r.next_turn = some "bob" ∧ g2.turn = "bob" := by
  obtain ⟨r, g2, h1, h2, h3, h4, -, -⟩ :=
    c4_make_move_correct engC4 "game4" "alice" 0 0
      ((get_game engC4 "game4").getD dummyGame) "bob" "S"
      rfl rfl rfl rfl rfl rfl rfl (Or.inl rfl) (by decide)
  exact ⟨r, g2, h1, h2, h3, h4⟩

theorem pyIdx_inBounds10 (i : Int) (h0 : 0 ≤ i) (h10 : i < 10) :
    pyIdx 10 i = some i.toNat := by
  unfold pyIdx
  rw [if_pos h0, if_pos (by exact_mod_cast h10)]

theorem inBounds_spec (x y : Int) (h : inBounds (x, y) = true) :
    0 ≤ x ∧ x < 10 ∧ 0 ≤ y ∧ y < 10 := by
  simp only [inBounds, Bool.and_eq_true, decide_eq_true_eq] at h
  exact ⟨h.1.1.1, h.1.1.2, h.1.2, h.2⟩

theorem pySet2_some_of_inBounds (b : Board) (x y : Int) (v : String)
    (hh : b.length = 10) (hw : ∀ row ∈ b, row.length = 10)
    (hb : inBounds (x, y) = true) :
    ∃ b2, pySet2 b y x v = some b2 := by
  obtain ⟨hx0, hx10, hy0, hy10⟩ := inBounds_spec x y hb
  unfold pySet2
  rw [hh, pyIdx_inBounds10 y hy0 hy10]
  simp only [Option.some_bind]
  rcases hrow : b.get? y.toNat with _ | row
  · rw [List.get?_eq_getElem?, List.getElem?_eq_none_iff] at hrow
    omega
  · simp only [Option.some_bind]
    have hrlen : row.length = 10 := hw row (List.get?_mem hrow)
    unfold pySet
    rw [hrlen, pyIdx_inBounds10 x hx0 hx10]
    simp

theorem pySet2_shape (b : Board) (x y : Int) (v : String) (b2 : Board)
    (hh : b.length = 10) (hw : ∀ row ∈ b, row.length = 10)
    (h : pySet2 b y x v = some b2) :
    b2.length = 10 ∧ ∀ row ∈ b2, row.length = 10 := by
  unfold pySet2 at h
  cases hy : pyIdx b.length y with
  | none => rw [hy] at h; simp at h
  | some ny =>
      rw [hy] at h
      simp only [Option.some_bind] at h
      cases hrow : b.get? ny with
      | none => rw [hrow] at h; simp at h
      | some row =>
          rw [hrow] at h
          simp only [Option.some_bind] at h
          unfold pySet at h
          cases hx : pyIdx row.length x with
          | none => rw [hx] at h; simp at h
          | some nx =>
              rw [hx] at h
              simp only [Option.map_some'] at h
              injection h with h
              subst h
              refine ⟨by rw [List.length_set]; exact hh, ?_⟩
              intro row2 hmem
              rcases List.mem_or_eq_of_mem_set hmem with hm | hm
              · exact hw row2 hm
              · subst hm
                rw [List.length_set]
                exact hw row (List.get?_mem hrow)

theorem pyGet2_pySet2_ne (b : Board) (x y x2 y2 : Int) (v : String)
    (b2 : Board)
    (hh : b.length = 10) (hw : ∀ row ∈ b, row.length = 10)
    (hb1 : inBounds (x, y) = true) (hb2 : inBounds (x2, y2) = true)
    (hne : (x2, y2) ≠ (x, y))
    (h : pySet2 b y x v = some b2) :
    pyGet2 b2 y2 x2 = pyGet2 b y2 x2 := by
  obtain ⟨hx0, hx10, hy0, hy10⟩ := inBounds_spec x y hb1
  obtain ⟨hx20, hx210, hy20, hy210⟩ := inBounds_spec x2 y2 hb2
  unfold pySet2 at h
  rw [hh, pyIdx_inBounds10 y hy0 hy10] at h
  simp only [Option.some_bind] at h
  rcases hrow : b.get? y.toNat with _ | row
  · rw [hrow] at h; simp at h
  rw [hrow] at h
  simp only [Option.some_bind] at h
  unfold pySet at h
  have hrlen : row.length = 10 := hw row (List.get?_mem hrow)
  rw [hrlen, pyIdx_inBounds10 x hx0 hx10] at h
  simp only [Option.map_some'] at h
  injection h with h
  subst h
  unfold pyGet2 pyGet
  rw [List.length_set, hh, pyIdx_inBounds10 y2 hy20 hy210]
  simp only [Option.some_bind]
  by_cases hyy : y2 = y
  · subst hyy
    have hxx : x2 ≠ x := by
      intro hc
      exact hne (by rw [hc])
    rw [List.get?_eq_getElem?,
      List.getElem?_set_self (by rw [hh]; omega), hrow]
    simp only [Option.some_bind]
    rw [List.length_set, hrlen, pyIdx_inBounds10 x2 hx20 hx210]
    simp only [Option.some_bind]
    rw [List.get?_eq_getElem?, List.get?_eq_getElem?,
      List.getElem?_set_ne (by omega)]
  · rw [List.get?_eq_getElem?, List.get?_eq_getElem?,
      List.getElem?_set_ne (by omega)]

theorem pyGet2_empty (x y : Int) (hb : inBounds (x, y) = true) :
    pyGet2 create_empty_board y x = some "" := by
  obtain ⟨hx0, hx10, hy0, hy10⟩ := inBounds_spec x y hb
  unfold pyGet2 pyGet create_empty_board
  rw [List.length_replicate, pyIdx_inBounds10 y hy0 hy10]
  simp only [Option.some_bind]
  rw [List.get?_eq_getElem?, List.getElem?_replicate_of_lt (by omega)]
  simp only [Option.some_bind]
  rw [List.length_replicate, pyIdx_inBounds10 x hx0 hx10]
  simp only [Option.some_bind]
  rw [List.get?_eq_getElem?, List.getElem?_replicate_of_lt (by omega)]

theorem writeCells_spec (v : String) (coords : List (Int × Int)) (b : Board)
    (hh : b.length = 10) (hw : ∀ row ∈ b, row.length = 10)
    (hin : ∀ c ∈ coords, inBounds c = true) :
    ∃ b2, writeCells v b coords = (b2, true) ∧ b2.length = 10 ∧
      (∀ row ∈ b2, row.length = 10) ∧
      ∀ xx yy : Int, inBounds (xx, yy) = true →
        pyGet2 b2 yy xx =
          if (xx, yy) ∈ coords then some v else pyGet2 b yy xx := by
  induction coords generalizing b with
  | nil => exact ⟨b, rfl, hh, hw, by simp⟩
  | cons c rest ih =>
      obtain ⟨cx, cy⟩ := c
      have hcb : inBounds (cx, cy) = true := hin _ (List.mem_cons_self _ _)
      obtain ⟨b1, hset⟩ := pySet2_some_of_inBounds b cx cy v hh hw hcb
      obtain ⟨h1len, h1w⟩ := pySet2_shape b cx cy v b1 hh hw hset
      obtain ⟨b2, hwr, h2len, h2w, hcells⟩ :=
        ih b1 h1len h1w (fun c hc => hin c (List.mem_cons_of_mem _ hc))
      refine ⟨b2, ?_, h2len, h2w, ?_⟩
      · unfold writeCells
        rw [hset]
        exact hwr
      · intro xx yy hbxy
        rw [hcells xx yy hbxy]
        by_cases hmem : (xx, yy) ∈ rest
        · simp [hmem]
        · by_cases heq : (xx, yy) = (cx, cy)
          · rw [if_neg hmem, if_pos (by rw [heq]; exact List.mem_cons_self _ _)]
            have := pyGet2_pySet2_self b cy cx v b1 hset
            rw [show xx = cx from by injection heq,
              show yy = cy from by injection heq with h1 h2]
            exact this
          · rw [if_neg hmem,
              if_neg (by
                intro hc
                rcases List.mem_cons.mp hc with hc2 | hc2
                · exact heq hc2
                · exact hmem hc2)]
            exact pyGet2_pySet2_ne b cx cy xx yy v b1 hh hw hcb hbxy heq
              hset

theorem dset_keys_of_isSome {κ β : Type} [DecidableEq κ] (k : κ) (v : β)
    (l : List (κ × β)) (h : (dlookup k l).isSome = true) :
    (dset k v l).map (fun kv => kv.1) = l.map (fun kv => kv.1) := by
  induction l with
  | nil => simp [dlookup] at h
  | cons kv2 rest ih =>
      obtain ⟨k2, v2⟩ := kv2
      by_cases hk : k = k2
      · subst hk
        simp [dset]
      · simp only [dlookup, if_neg hk] at h
        simp [dset, hk, ih h]

theorem dlookup_mem_keys {κ β : Type} [DecidableEq κ] (k : κ) (c : β)
    (l : List (κ × β)) (h : dlookup k l = some c) :
    k ∈ l.map (fun kv => kv.1) := by
  induction l with
  | nil => simp [dlookup] at h
  | cons kv2 rest ih =>
      obtain ⟨k2, v2⟩ := kv2
      by_cases hk : k = k2
      · subst hk
        simp
      · simp only [dlookup, if_neg hk] at h
        simp [ih h]

theorem mem_keys_dlookup {κ β : Type} [DecidableEq κ] (k : κ)
    (l : List (κ × β)) (h : k ∈ l.map (fun kv => kv.1)) :
    ∃ c, dlookup k l = some c := by
  induction l with
  | nil => simp at h
  | cons kv2 rest ih =>
      obtain ⟨k2, v2⟩ := kv2
      by_cases hk : k = k2
      · subst hk
        exact ⟨v2, by simp [dlookup]⟩
      · simp only [List.map_cons, List.mem_cons] at h
        rcases h with h | h
        · exact absurd h hk
        · obtain ⟨c, hc⟩ := ih h
          exact ⟨c, by simp [dlookup, hk, hc]⟩

theorem dlookup_cons_self {κ β : Type} [DecidableEq κ] (k : κ) (v : β)
    (rest : List (κ × β)) : dlookup k ((k, v) :: rest) = some v := by
  simp [dlookup]

theorem dset_cons_self {κ β : Type} [DecidableEq κ] (k : κ) (v v2 : β)
    (rest : List (κ × β)) :
    dset k v ((k, v2) :: rest) = (k, v) :: rest := by
  simp [dset]

theorem inventoryCells_dset (k v cnt : Nat) (l : List (Nat × Nat))
    (h : dlookup k l = some cnt) :
    inventoryCells (dset k v l) + k * cnt = inventoryCells l + k * v := by
  induction l with
  | nil => simp [dlookup] at h
  | cons kv2 rest ih =>
      obtain ⟨k2, v2⟩ := kv2
      by_cases hk : k = k2
      · subst hk
        rw [dlookup_cons_self] at h
        injection h with h
        subst h
        rw [dset_cons_self]
        simp only [inventoryCells, List.map_cons, List.sum_cons]
        ring
      · simp only [dlookup, if_neg hk] at h
        have := ih h
        simp only [dset, if_neg hk, inventoryCells, List.map_cons,
          List.sum_cons] at this ⊢
        omega

theorem shipCells_append_one (l : List Ship) (s : Ship) :
    shipCells (l ++ [s]) = shipCells l + s.coords.length := by
  simp [shipCells]

theorem shipCells_erase (l : List Ship) (a : Ship) (h : a ∈ l) :
    shipCells (l.erase a) + a.coords.length = shipCells l := by
  induction l with
  | nil => simp at h
  | cons b rest ih =>
      by_cases hab : b = a
      · subst hab
        rw [List.erase_cons_head]
        simp only [shipCells, List.map_cons, List.sum_cons]
        omega
      · rw [List.erase_cons_tail (by simpa using hab)]
        rcases List.mem_cons.mp h with hc | hc
        · exact absurd hc.symm hab
        · have := ih hc
          simp only [shipCells, List.map_cons, List.sum_cons] at this ⊢
          omega

theorem disj_of_pairwise {l : List Ship}
    (hp : l.Pairwise (fun s t => ∀ c, c ∈ s.coords → c ∉ t.coords))
    {a b : Ship} (ha : a ∈ l) (hb : b ∈ l) (hne : a ≠ b)
    (c : Int × Int) (hca : c ∈ a.coords) : c ∉ b.coords := by
  induction l with
  | nil => simp at ha
  | cons hd tl ih =>
      rcases List.pairwise_cons.mp hp with ⟨hhd, htl⟩
      rcases List.mem_cons.mp ha with rfl | ha2
      · rcases List.mem_cons.mp hb with rfl | hb2
        · exact absurd rfl hne
        · exact hhd b hb2 c hca
      · rcases List.mem_cons.mp hb with rfl | hb2
        · intro hc
          exact (hhd a ha2 c hc) hca
        · exact ih htl ha2 hb2

theorem nodup_of_placeInv_disj {l : List Ship}
    (hp : l.Pairwise (fun s t => ∀ c, c ∈ s.coords → c ∉ t.coords))
    (hne : ∀ s ∈ l, s.coords ≠ []) : l.Nodup := by
  refine hp.imp_of_mem ?_
  intro a b ha _ hr hab
  subst hab
  rcases hx : a.coords with _ | ⟨c, cs⟩
  · exact hne a ha hx
  · have hc : c ∈ a.coords := by rw [hx]; exact List.mem_cons_self _ _
    exact (hr c hc) hc

/-- `create_game` establishes the placement invariant for every player. -/
theorem placeInv_create (e0 : Engine) (gid p1 p2 pl : String)
    (coin : Bool) :
    ∃ g, get_game (create_game e0 gid p1 p2 coin) gid = some g ∧
      PlaceInv g pl := by
  refine ⟨_, dlookup_dset_self _ _ _, ?_⟩
  constructor
  · simp [create_empty_board]
  · intro row hrow
    simp only [create_empty_board] at hrow
    rw [List.eq_of_mem_replicate hrow]
    simp
  · rfl
  · intro s hs
    simp at hs
  · intro s hs
    simp at hs
  · exact List.Pairwise.nil
  · intro xx yy hbx
    rw [pyGet2_empty xx yy hbx]
    constructor
    · intro hc
      exact absurd hc (by decide)
    · rintro ⟨s, hs, -⟩
      simp at hs
  · intro xx yy hbx
    exact Or.inr (pyGet2_empty xx yy hbx)
  · simp [shipCells, inventoryCells]

theorem upd_same {β : Type} (f : String → β) (k : String) (v : β) :
    upd f k v k = v := by simp [upd]

theorem placeCoords_length (x y : Int) (len : Nat) (o : String) :
    (placeCoords x y len o).length = len := by
  unfold placeCoords
  rw [List.length_map, List.length_range]

/-- A valid `place_ships` call preserves the placement invariant. -/
theorem placeInv_place (gid pl : String) (e : Engine) (g : Game)
    (hg : get_game e gid = some g) (hinv : PlaceInv g pl)
    (x y : Int) (len : Nat) (o : String)
    (hval : validPOp gid pl e (POp.place x y len o) = true) :
    ∃ g2, get_game (place_ships e gid pl x y len o).2 gid = some g2 ∧
      PlaceInv g2 pl := by
  unfold validPOp at hval
  simp only [hg, Bool.and_eq_true, List.all_eq_true, beq_iff_eq] at hval
  obtain ⟨hkey, hcells⟩ := hval
  obtain ⟨cnt, hcnt⟩ := Option.isSome_iff_exists.mp hkey
  by_cases hzero : cnt = 0
  · subst hzero
    unfold place_ships
    simp only [hg, hcnt, reduceIte]
    exact ⟨g, rfl, hinv⟩
  · have hin : ∀ c ∈ placeCoords x y len o, inBounds c = true :=
      fun c hc => (hcells c hc).1
    have hfree : ∀ c ∈ placeCoords x y len o,
        pyGet2 (g.boards pl) c.2 c.1 = some "" :=
      fun c hc => (hcells c hc).2
    obtain ⟨b2, hwr, hb2len, hb2w, hb2cells⟩ :=
      writeCells_spec "S" (placeCoords x y len o) (g.boards pl)
        hinv.board_h hinv.board_w hin
    have hnotmem : ∀ s ∈ g.placed_ships pl, ∀ c ∈ s.coords,
        c ∉ placeCoords x y len o := by
      intro s hs c hcs hcp
      have hS : pyGet2 (g.boards pl) c.2 c.1 = some "S" :=
        (hinv.cell_iff c.1 c.2 (hin c hcp)).mpr ⟨s, hs, by simpa using hcs⟩
      rw [hfree c hcp] at hS
      simp at hS
    have hlenk : len ∈ [2, 3, 4, 5] := by
      have := dlookup_mem_keys len cnt (g.ships_left pl) hcnt
      rw [hinv.keys] at this
      exact this
    unfold place_ships
    simp only [hg, hcnt, if_neg hzero, hwr]
    refine ⟨_, dlookup_dset_self _ _ _, ?_⟩
    constructor
    · simp only [upd_same]
      exact hb2len
    · simp only [upd_same]
      exact hb2w
    · simp only [upd_same]
      rw [dset_keys_of_isSome len (cnt - 1) (g.ships_left pl) hkey]
      exact hinv.keys
    · simp only [upd_same]
      intro s hs
      rcases List.mem_append.mp hs with hs2 | hs2
      · exact hinv.ship_len s hs2
      · rw [List.mem_singleton.mp hs2]
        simpa [placeCoords_length] using hlenk
    · simp only [upd_same]
      intro s hs
      rcases List.mem_append.mp hs with hs2 | hs2
      · exact hinv.ship_in s hs2
      · rw [List.mem_singleton.mp hs2]
        exact hin
    · simp only [upd_same]
      refine List.pairwise_append.mpr ⟨hinv.disj, by simp, ?_⟩
      intro s hs t ht c hcs
      rw [List.mem_singleton.mp ht]
      exact hnotmem s hs c hcs
    · simp only [upd_same]
      intro xx yy hbx
      rw [hb2cells xx yy hbx]
      by_cases hmem : (xx, yy) ∈ placeCoords x y len o
      · rw [if_pos hmem]
        constructor
        · intro _
          exact ⟨⟨placeCoords x y len o, false⟩,
            List.mem_append.mpr (Or.inr (List.mem_singleton.mpr rfl)), hmem⟩
        · intro _
          rfl
      · rw [if_neg hmem]
        constructor
        · intro hS
          obtain ⟨s, hs, hxy⟩ := (hinv.cell_iff xx yy hbx).mp hS
          exact ⟨s, List.mem_append.mpr (Or.inl hs), hxy⟩
        · rintro ⟨s, hs, hxy⟩
          rcases List.mem_append.mp hs with hs2 | hs2
          · exact (hinv.cell_iff xx yy hbx).mpr ⟨s, hs2, hxy⟩
          · rw [List.mem_singleton.mp hs2] at hxy
            exact absurd hxy hmem
    · simp only [upd_same]
      intro xx yy hbx
      rw [hb2cells xx yy hbx]
      by_cases hmem : (xx, yy) ∈ placeCoords x y len o
      · rw [if_pos hmem]
        exact Or.inl rfl
      · rw [if_neg hmem]
        exact hinv.cell_vals xx yy hbx
    · simp only [upd_same]
      rw [shipCells_append_one]
      have harith := inventoryCells_dset len (cnt - 1) cnt
        (g.ships_left pl) hcnt
      have htot := hinv.total
      obtain ⟨c2, rfl⟩ : ∃ c2, cnt = c2 + 1 := ⟨cnt - 1, by omega⟩
      rw [Nat.mul_succ] at harith
      simp only [Nat.add_sub_cancel] at harith ⊢
      simp only [placeCoords_length]
      omega

/-- A `remove_ship` call preserves the placement invariant. -/
theorem placeInv_remove (gid pl : String) (e : Engine) (g : Game)
    (hg : get_game e gid = some g) (hinv : PlaceInv g pl) (x y : Int) :
    ∃ g2, get_game (remove_ship e gid pl x y).2 gid = some g2 ∧
      PlaceInv g2 pl := by
  rcases hf : (g.placed_ships pl).find? (fun s => s.coords.contains (x, y))
      with _ | ship
  · unfold remove_ship
    simp only [hg, hf]
    exact ⟨g, rfl, hinv⟩
  have hmem : ship ∈ g.placed_ships pl := List.mem_of_find?_eq_some hf
  have hsin : ∀ c ∈ ship.coords, inBounds c = true := hinv.ship_in ship hmem
  obtain ⟨b2, hwr, hb2len, hb2w, hb2cells⟩ :=
    writeCells_spec "" ship.coords (g.boards pl) hinv.board_h hinv.board_w
      hsin
  have hlk : ship.coords.length ∈
      (g.ships_left pl).map (fun kv => kv.1) := by
    rw [hinv.keys]
    exact hinv.ship_len ship hmem
  obtain ⟨cnt, hcnt⟩ := mem_keys_dlookup _ _ hlk
  have hnodup : (g.placed_ships pl).Nodup := by
    refine nodup_of_placeInv_disj hinv.disj ?_
    intro s hs hc
    have := hinv.ship_len s hs
    rw [hc] at this
    simp at this
  unfold remove_ship
  simp only [hg, hf, hwr, hcnt]
  refine ⟨_, dlookup_dset_self _ _ _, ?_⟩
  constructor
  · simp only [upd_same]
    exact hb2len
  · simp only [upd_same]
    exact hb2w
  · simp only [upd_same]
    rw [dset_keys_of_isSome _ _ _ (by rw [hcnt]; rfl)]
    exact hinv.keys
  · simp only [upd_same]
    intro s hs
    exact hinv.ship_len s (List.erase_subset _ _ hs)
  · simp only [upd_same]
    intro s hs
    exact hinv.ship_in s (List.erase_subset _ _ hs)
  · simp only [upd_same]
    exact List.Pairwise.sublist (List.erase_sublist _ _) hinv.disj
  · simp only [upd_same]
    intro xx yy hbx
    rw [hb2cells xx yy hbx]
    by_cases hmemc : (xx, yy) ∈ ship.coords
    · rw [if_pos hmemc]
      constructor
      · intro hS
        simp at hS
      · rintro ⟨s, hs, hxy⟩
        obtain ⟨hne, hs2⟩ := (List.Nodup.mem_erase_iff hnodup).mp hs
        exact absurd hmemc
          (disj_of_pairwise hinv.disj hs2 hmem hne (xx, yy) hxy)
    · rw [if_neg hmemc]
      constructor
      · intro hS
        obtain ⟨s, hs, hxy⟩ := (hinv.cell_iff xx yy hbx).mp hS
        have hne : s ≠ ship := by
          intro hc
          rw [hc] at hxy
          exact hmemc hxy
        exact ⟨s, (List.Nodup.mem_erase_iff hnodup).mpr ⟨hne, hs⟩, hxy⟩
      · rintro ⟨s, hs, hxy⟩
        exact (hinv.cell_iff xx yy hbx).mpr
          ⟨s, List.erase_subset _ _ hs, hxy⟩
  · simp only [upd_same]
    intro xx yy hbx
    rw [hb2cells xx yy hbx]
    by_cases hmemc : (xx, yy) ∈ ship.coords
    · rw [if_pos hmemc]
      exact Or.inr rfl
    · rw [if_neg hmemc]
      exact hinv.cell_vals xx yy hbx
  · simp only [upd_same]
    have hsc := shipCells_erase (g.placed_ships pl) ship hmem
    have harith := inventoryCells_dset ship.coords.length (cnt + 1) cnt
      (g.ships_left pl) hcnt
    have htot := hinv.total
    rw [Nat.mul_succ] at harith
    omega

/-- Valid placement-phase sequences preserve the invariant. -/
theorem placeInv_ops (gid pl : String) (ops : List POp) :
    ∀ (e : Engine) (g : Game), get_game e gid = some g → PlaceInv g pl →
      validPOps gid pl e ops = true →
      ∃ g2, get_game (applyPOps gid pl e ops) gid = some g2 ∧
        PlaceInv g2 pl := by
  induction ops with
  | nil =>
      intro e g hg hinv _
      exact ⟨g, hg, hinv⟩
  | cons op rest ih =>
      intro e g hg hinv hval
      simp only [validPOps, Bool.and_eq_true] at hval
      obtain ⟨h1, h2⟩ := hval
      obtain ⟨g1, hg1, hinv1⟩ : ∃ g1,
          get_game (applyPOp gid pl e op) gid = some g1 ∧ PlaceInv g1 pl := by
        cases op with
        | place x y len o => exact placeInv_place gid pl e g hg hinv x y len o h1
        | remove x y => exact placeInv_remove gid pl e g hg hinv x y
      exact ih (applyPOp gid pl e op) g1 hg1 hinv1 h2

/-- C5: starting from `create_game`, after any sequence of valid (in-bounds,
non-overlapping, inventory-length) `place_ships` and `remove_ship` calls
for a player, the sum of `len(coords)` over `placed_ships` plus
`Σ length·ships_left[length]` equals 17, and a board cell holds `"S"` iff
it belongs to some placed ship. -/
theorem c5_placement_invariant (e0 : Engine) (gid p1 p2 pl : String)
    (coin : Bool) (_hpl : pl = p1 ∨ pl = p2) (ops : List POp)
    (hval : validPOps gid pl (create_game e0 gid p1 p2 coin) ops = true) :
    ∃ g, get_game (applyPOps gid pl (create_game e0 gid p1 p2 coin) ops)
        gid = some g ∧
      shipCells (g.placed_ships pl) + inventoryCells (g.ships_left pl) =
        17 ∧
      ∀ xx yy : Int, inBounds (xx, yy) = true →
        (pyGet2 (g.boards pl) yy xx = some "S" ↔
          ∃ s ∈ g.placed_ships pl, (xx, yy) ∈ s.coords) := by
  obtain ⟨g0, hg0, hinv0⟩ := placeInv_create e0 gid p1 p2 pl coin
  obtain ⟨g, hgf, hinvf⟩ :=
    placeInv_ops gid pl ops (create_game e0 gid p1 p2 coin) g0 hg0 hinv0
      hval
  exact ⟨g, hgf, hinvf.total, hinvf.cell_iff⟩

/-- C5 witness: a concrete valid sequence — place three ships, remove one,
re-place it elsewhere. -/
theorem c5_placement_invariant_witness :
    ∃ g, get_game (applyPOps "game5" "alice"
        (create_game [] "game5" "alice" "bob" true)
        [POp.place 0 0 2 "horizontal", POp.place 4 4 3 "vertical",
          POp.remove 0 0, POp.place 2 2 2 "horizontal"]) "game5" = some g ∧
      shipCells (g.placed_ships "alice") +
        inventoryCells (g.ships_left "alice") = 17 ∧
      ∀ xx yy : Int, inBounds (xx, yy) = true →
        (pyGet2 (g.boards "alice") yy xx = some "S" ↔
          ∃ s ∈ g.placed_ships "alice", (xx, yy) ∈ s.coords) :=
  c5_placement_invariant [] "game5" "alice" "bob" "alice" true
    (Or.inl rfl)
    [POp.place 0 0 2 "horizontal", POp.place 4 4 3 "vertical",
      POp.remove 0 0, POp.place 2 2 2 "horizontal"]
    (by decide)
